import Mathlib

/-!
Shallow embedding of the action-runner core of the bevy_flurx repository.

The embedded code is the runner layer reachable from the provided source
files: `OnceRunner::run` (src/src/action/once.rs), `SequenceRunner::run`
and the `Then` combinator with the `sequence!` macro
(src/src/action/sequence.rs), and `PushRunner::run`
(src/src/action/record/push.rs).  The supporting primitives of the
`runner` module (the `Output` cell and the `CancellationToken`) and the
record-keeping function `push_track` are not among the provided source
files; they are modelled from the specification, each marked as such in
its doc comment.

A runner's poll is embedded as a pure step function from a private state
and a world to the next private state, the next world, the value the poll
wrote into the runner's `Output` cell (if any), and the Boolean
completion flag the poll returned.
-/

namespace Flurx

/-- Modelled from the spec: the single-slot `Output` cell of the runner
module (states Empty and Filled), which is not among the provided source
files; represented as an optional value. -/
abbrev Output (O : Type) : Type := Option O

/-- Modelled from the spec: a cancellation token is a node in a tree
carrying its own cancelled flag; child tokens keep a link to their
parent. -/
inductive CancellationToken : Type where
  | root (cancelled : Bool)
  | child (cancelled : Bool) (parent : CancellationToken)

/-- Modelled from the spec: `requested_cancel` is true when the node
itself or any ancestor carries a set cancelled flag. -/
def CancellationToken.requested_cancel : CancellationToken → Bool
  | .root c => c
  | .child c p => c || p.requested_cancel

/-- Result of one poll of a runner: the next private state, the world
after the poll, the value written to the runner's `Output` cell during
the poll (if any), and the completion flag returned to the caller. -/
structure StepResult (σ W O : Type) : Type where
  state : σ
  world : W
  write : Option O
  done : Bool

/-- A unit of work polled once per step: shallow embedding of the
`Runner` capability whose `run` receives only the world (as in
sequence.rs), with the mutation of the runner's own `Output` cell made
explicit in the result. -/
structure RunnerModel (σ W O : Type) : Type where
  step : σ → W → StepResult σ W O

/-- State and world after `n` polls of a runner. -/
def RunnerModel.iter {σ W O : Type} (m : RunnerModel σ W O) :
    Nat → σ → W → σ × W
  | 0, s, w => (s, w)
  | n + 1, s, w => m.iter n (m.step s w).state (m.step s w).world

/-- Result of the poll with zero-based index `n` (the `(n+1)`-th poll)
starting from state `s` and world `w`. -/
def RunnerModel.poll {σ W O : Type} (m : RunnerModel σ W O)
    (s : σ) (w : W) (n : Nat) : StepResult σ W O :=
  m.step (m.iter n s w).1 (m.iter n s w).2

theorem RunnerModel.poll_zero {σ W O : Type} (m : RunnerModel σ W O)
    (s : σ) (w : W) : m.poll s w 0 = m.step s w := rfl

theorem RunnerModel.poll_succ {σ W O : Type} (m : RunnerModel σ W O)
    (s : σ) (w : W) (n : Nat) :
    m.poll s w (n + 1) = m.poll (m.step s w).state (m.step s w).world n := rfl

theorem RunnerModel.iter_succ {σ W O : Type} (m : RunnerModel σ W O)
    (s : σ) (w : W) (n : Nat) :
    m.iter (n + 1) s w = m.iter n (m.step s w).state (m.step s w).world := rfl

/-- The runner first reports completion on the poll with zero-based
index `n`: that poll returns the completed flag and every earlier poll
returned the pending flag. -/
def RunnerModel.completesAt {σ W O : Type} (m : RunnerModel σ W O)
    (s : σ) (w : W) (n : Nat) : Prop :=
  (m.poll s w n).done = true ∧ ∀ k, k < n → (m.poll s w k).done = false

/-- Among the polls with indices `0` to `n` there is exactly one that
writes to the runner's `Output` cell. -/
def RunnerModel.writeOnceUpTo {σ W O : Type} (m : RunnerModel σ W O)
    (s : σ) (w : W) (n : Nat) : Prop :=
  ∃ k, k ≤ n ∧ ((m.poll s w k).write.isSome = true) ∧
    ∀ j, j ≤ n → j ≠ k → (m.poll s w j).write = none

/-- Whenever the runner first completes, it wrote its `Output` exactly
once, no later than the completing poll. -/
def RunnerModel.WriteOnce {σ W O : Type} (m : RunnerModel σ W O) (s : σ) : Prop :=
  ∀ w n, m.completesAt s w n → m.writeOnceUpTo s w n

/-- Embedding of `OnceRunner::run` (src/src/action/once.rs, lines
100-109).  The runner stores the system and an optional input; a poll
takes the input if still present, runs the system once, writes its
return value into the `Output`, and completes; if the input was already
taken the poll completes immediately with no further work.  The Bevy
bookkeeping calls `initialize` and `apply_deferred` are folded into the
pure system function.  The cancellation-token parameter is received but
ignored, mirroring the `_` pattern in the source. -/
def OnceRunner.run {I O W : Type} (system : I → W → O × W)
    (_tk : CancellationToken) (input : Option I) (w : W) :
    StepResult (Option I) W O :=
  match input with
  | none => ⟨none, w, none, true⟩
  | some i => ⟨none, (system i w).2, some (system i w).1, true⟩

/-- The runner produced by `once::run`, packaged as a step function. -/
def onceModel {I O W : Type} (system : I → W → O × W)
    (tk : CancellationToken) : RunnerModel (Option I) W O :=
  ⟨fun s w => OnceRunner.run system tk s w⟩

/-- A track pushed onto the record.  The `act` payload is kept; the
undo and redo closures of the source's `Track` play no part in the
embedded claims. -/
structure Track (Act : Type) : Type where
  act : Act

/-- Error value returned by record edits while an undo or redo replay is
active (the `UndoRedoInProgress` output documented in push.rs). -/
inductive UndoRedoInProgress : Type where
  | mk

/-- Result type of record edits: unit on success, `UndoRedoInProgress`
otherwise. -/
abbrev EditRecordResult : Type := Except UndoRedoInProgress Unit

/-- Modelled from the spec: the per-category `Record` resource, an
append-only track log together with the flag that is set while an undo
or redo replay is active.  The `Record` type itself is not among the
provided source files; the `tracks` field name follows the tests in
push.rs. -/
structure Record (Act : Type) : Type where
  tracks : List (Track Act)
  inProgress : Bool

/-- Modelled from the spec: `push_track` (called by `PushRunner::run`
but not among the provided source files) appends the track to the log,
failing with `UndoRedoInProgress` and leaving the log unchanged while a
replay is active.  The trailing Boolean mirrors the extra argument at
the call site in push.rs. -/
def push_track {Act : Type} (track : Track Act) (world : Record Act)
    (_flag : Bool) : Except UndoRedoInProgress (Record Act) :=
  if world.inProgress then .error .mk
  else .ok { world with tracks := world.tracks ++ [track] }

/-- Embedding of `PushRunner::run` (src/src/action/record/push.rs, lines
60-69).  If the stored track is still present it is taken and pushed;
a push failure writes the error and completes.  Otherwise — including
every poll after the track was consumed — the poll writes `Ok(())` and
completes.  The cancellation-token parameter is received but ignored,
mirroring the `_` pattern in the source. -/
def PushRunner.run {Act : Type} (_tk : CancellationToken)
    (track : Option (Track Act)) (world : Record Act) :
    StepResult (Option (Track Act)) (Record Act) EditRecordResult :=
  match track with
  | some t =>
    match push_track t world true with
    | .error e => ⟨none, world, some (.error e), true⟩
    | .ok world2 => ⟨none, world2, some (.ok ()), true⟩
  | none => ⟨none, world, some (.ok ()), true⟩

/-- The runner produced by `record::push`, packaged as a step function. -/
def pushModel {Act : Type} (tk : CancellationToken) :
    RunnerModel (Option (Track Act)) (Record Act) EditRecordResult :=
  ⟨fun s w => PushRunner.run tk s w⟩

/-- Private state of a `SequenceRunner`: the states of the two
sub-runners and the private `Output` cell shared with the first
sub-runner. -/
structure SeqState (σ1 σ2 O1 : Type) : Type where
  s1 : σ1
  s2 : σ2
  o1 : Output O1

/-- Embedding of `SequenceRunner::run` (src/src/action/sequence.rs,
lines 121-134).  If the held token requests cancellation the poll
completes at once.  Otherwise, when the private cell `o1` is empty,
runner 1 is polled and its returned flag discarded, its write landing in
`o1`; then, when `o1` is filled (now or previously), runner 2 is polled
and its result returned; otherwise the poll is pending.  The two `if`
tests on the shared cell in the source become the matches on `o1` and on
runner 1's write (the cell was empty, so after the poll it holds exactly
that write). -/
def SequenceRunner.run {σ1 σ2 W O1 O2 : Type}
    (m1 : RunnerModel σ1 W O1) (m2 : RunnerModel σ2 W O2)
    (token : CancellationToken) (s : SeqState σ1 σ2 O1) (w : W) :
    StepResult (SeqState σ1 σ2 O1) W O2 :=
  if token.requested_cancel then ⟨s, w, none, true⟩
  else
    match s.o1 with
    | some v =>
      let r2 := m2.step s.s2 w
      ⟨⟨s.s1, r2.state, some v⟩, r2.world, r2.write, r2.done⟩
    | none =>
      let r1 := m1.step s.s1 w
      match r1.write with
      | some v =>
        let r2 := m2.step s.s2 r1.world
        ⟨⟨r1.state, r2.state, some v⟩, r2.world, r2.write, r2.done⟩
      | none => ⟨⟨r1.state, s.s2, none⟩, r1.world, none, false⟩

/-- The composite runner built by `Then::then`, packaged as a step
function. -/
def seqModel {σ1 σ2 W O1 O2 : Type}
    (m1 : RunnerModel σ1 W O1) (m2 : RunnerModel σ2 W O2)
    (token : CancellationToken) :
    RunnerModel (SeqState σ1 σ2 O1) W O2 :=
  ⟨fun s w => SequenceRunner.run m1 m2 token s w⟩

theorem seq_run_cancelled {σ1 σ2 W O1 O2 : Type}
    (m1 : RunnerModel σ1 W O1) (m2 : RunnerModel σ2 W O2)
    (token : CancellationToken) (hc : token.requested_cancel = true)
    (s : SeqState σ1 σ2 O1) (w : W) :
    SequenceRunner.run m1 m2 token s w = ⟨s, w, none, true⟩ := by
  simp [SequenceRunner.run, hc]

theorem seq_run_filled {σ1 σ2 W O1 O2 : Type}
    (m1 : RunnerModel σ1 W O1) (m2 : RunnerModel σ2 W O2)
    (token : CancellationToken) (hc : token.requested_cancel = false)
    (s1 : σ1) (s2 : σ2) (v : O1) (w : W) :
    SequenceRunner.run m1 m2 token ⟨s1, s2, some v⟩ w
      = ⟨⟨s1, (m2.step s2 w).state, some v⟩, (m2.step s2 w).world,
         (m2.step s2 w).write, (m2.step s2 w).done⟩ := by
  simp [SequenceRunner.run, hc]

theorem seq_run_nowrite {σ1 σ2 W O1 O2 : Type}
    (m1 : RunnerModel σ1 W O1) (m2 : RunnerModel σ2 W O2)
    (token : CancellationToken) (hc : token.requested_cancel = false)
    (s1 : σ1) (s2 : σ2) (w : W) (hw : (m1.step s1 w).write = none) :
    SequenceRunner.run m1 m2 token ⟨s1, s2, none⟩ w
      = ⟨⟨(m1.step s1 w).state, s2, none⟩, (m1.step s1 w).world, none, false⟩ := by
  simp [SequenceRunner.run, hc, hw]

theorem seq_run_write {σ1 σ2 W O1 O2 : Type}
    (m1 : RunnerModel σ1 W O1) (m2 : RunnerModel σ2 W O2)
    (token : CancellationToken) (hc : token.requested_cancel = false)
    (s1 : σ1) (s2 : σ2) (w : W) (v : O1)
    (hw : (m1.step s1 w).write = some v) :
    SequenceRunner.run m1 m2 token ⟨s1, s2, none⟩ w
      = ⟨⟨(m1.step s1 w).state, (m2.step s2 (m1.step s1 w).world).state, some v⟩,
         (m2.step s2 (m1.step s1 w).world).world,
         (m2.step s2 (m1.step s1 w).world).write,
         (m2.step s2 (m1.step s1 w).world).done⟩ := by
  simp [SequenceRunner.run, hc, hw]

theorem seq_iter_filled {σ1 σ2 W O1 O2 : Type}
    (m1 : RunnerModel σ1 W O1) (m2 : RunnerModel σ2 W O2)
    (token : CancellationToken) (hc : token.requested_cancel = false) :
    ∀ (t : Nat) (s1 : σ1) (s2 : σ2) (v : O1) (w : W),
      (seqModel m1 m2 token).iter t ⟨s1, s2, some v⟩ w
        = (⟨s1, (m2.iter t s2 w).1, some v⟩, (m2.iter t s2 w).2) := by
  intro t
  induction t with
  | zero => intro s1 s2 v w; rfl
  | succ t ih =>
    intro s1 s2 v w
    rw [RunnerModel.iter_succ, RunnerModel.iter_succ]
    have hstep : (seqModel m1 m2 token).step ⟨s1, s2, some v⟩ w
        = ⟨⟨s1, (m2.step s2 w).state, some v⟩, (m2.step s2 w).world,
           (m2.step s2 w).write, (m2.step s2 w).done⟩ :=
      seq_run_filled m1 m2 token hc s1 s2 v w
    rw [hstep]
    exact ih s1 (m2.step s2 w).state v (m2.step s2 w).world

theorem seq_poll_filled {σ1 σ2 W O1 O2 : Type}
    (m1 : RunnerModel σ1 W O1) (m2 : RunnerModel σ2 W O2)
    (token : CancellationToken) (hc : token.requested_cancel = false)
    (t : Nat) (s1 : σ1) (s2 : σ2) (v : O1) (w : W) :
    ((seqModel m1 m2 token).poll ⟨s1, s2, some v⟩ w t).write
        = (m2.poll s2 w t).write ∧
    ((seqModel m1 m2 token).poll ⟨s1, s2, some v⟩ w t).done
        = (m2.poll s2 w t).done := by
  unfold RunnerModel.poll
  rw [seq_iter_filled m1 m2 token hc]
  have hstep := seq_run_filled m1 m2 token hc s1 (m2.iter t s2 w).1 v (m2.iter t s2 w).2
  exact ⟨congrArg StepResult.write hstep, congrArg StepResult.done hstep⟩

theorem seq_iter_prefill {σ1 σ2 W O1 O2 : Type}
    (m1 : RunnerModel σ1 W O1) (m2 : RunnerModel σ2 W O2)
    (token : CancellationToken) (hc : token.requested_cancel = false) :
    ∀ (k : Nat) (s1 : σ1) (s2 : σ2) (w : W),
      (∀ j, j < k → (m1.poll s1 w j).write = none) →
      (seqModel m1 m2 token).iter k ⟨s1, s2, none⟩ w
        = (⟨(m1.iter k s1 w).1, s2, none⟩, (m1.iter k s1 w).2) := by
  intro k
  induction k with
  | zero => intro s1 s2 w _; rfl
  | succ k ih =>
    intro s1 s2 w hnw
    have h0 : (m1.step s1 w).write = none := hnw 0 (Nat.succ_pos k)
    rw [RunnerModel.iter_succ, RunnerModel.iter_succ]
    have hstep : (seqModel m1 m2 token).step ⟨s1, s2, none⟩ w
        = ⟨⟨(m1.step s1 w).state, s2, none⟩, (m1.step s1 w).world, none, false⟩ :=
      seq_run_nowrite m1 m2 token hc s1 s2 w h0
    rw [hstep]
    exact ih (m1.step s1 w).state s2 (m1.step s1 w).world
      (fun j hj => hnw (j + 1) (Nat.succ_lt_succ hj))

theorem seq_poll_prefill {σ1 σ2 W O1 O2 : Type}
    (m1 : RunnerModel σ1 W O1) (m2 : RunnerModel σ2 W O2)
    (token : CancellationToken) (hc : token.requested_cancel = false)
    (k : Nat) (s1 : σ1) (s2 : σ2) (w : W)
    (hnw : ∀ j, j ≤ k → (m1.poll s1 w j).write = none) :
    (seqModel m1 m2 token).poll ⟨s1, s2, none⟩ w k
      = ⟨⟨(m1.poll s1 w k).state, s2, none⟩, (m1.poll s1 w k).world,
         none, false⟩ := by
  unfold RunnerModel.poll
  rw [seq_iter_prefill m1 m2 token hc k s1 s2 w
    (fun j hj => hnw j (Nat.le_of_lt hj))]
  exact seq_run_nowrite m1 m2 token hc (m1.iter k s1 w).1 s2 (m1.iter k s1 w).2
    (hnw k (Nat.le_refl k))

theorem seq_poll_after_first_write {σ1 σ2 W O1 O2 : Type}
    (m1 : RunnerModel σ1 W O1) (m2 : RunnerModel σ2 W O2)
    (token : CancellationToken) (hc : token.requested_cancel = false)
    (s1 : σ1) (s2 : σ2) (w : W) (v : O1)
    (hw : (m1.step s1 w).write = some v) :
    ∀ t,
      ((seqModel m1 m2 token).poll ⟨s1, s2, none⟩ w t).write
        = (m2.poll s2 (m1.step s1 w).world t).write ∧
      ((seqModel m1 m2 token).poll ⟨s1, s2, none⟩ w t).done
        = (m2.poll s2 (m1.step s1 w).world t).done := by
  intro t
  cases t with
  | zero =>
    rw [RunnerModel.poll_zero, RunnerModel.poll_zero]
    have hstep : (seqModel m1 m2 token).step ⟨s1, s2, none⟩ w
        = ⟨⟨(m1.step s1 w).state, (m2.step s2 (m1.step s1 w).world).state, some v⟩,
           (m2.step s2 (m1.step s1 w).world).world,
           (m2.step s2 (m1.step s1 w).world).write,
           (m2.step s2 (m1.step s1 w).world).done⟩ :=
      seq_run_write m1 m2 token hc s1 s2 w v hw
    rw [hstep]
    exact ⟨rfl, rfl⟩
  | succ t =>
    rw [RunnerModel.poll_succ, RunnerModel.poll_succ]
    have hstep : (seqModel m1 m2 token).step ⟨s1, s2, none⟩ w
        = ⟨⟨(m1.step s1 w).state, (m2.step s2 (m1.step s1 w).world).state, some v⟩,
           (m2.step s2 (m1.step s1 w).world).world,
           (m2.step s2 (m1.step s1 w).world).write,
           (m2.step s2 (m1.step s1 w).world).done⟩ :=
      seq_run_write m1 m2 token hc s1 s2 w v hw
    rw [hstep]
    exact seq_poll_filled m1 m2 token hc t (m1.step s1 w).state
      (m2.step s2 (m1.step s1 w).world).state v
      (m2.step s2 (m1.step s1 w).world).world

/-- Formalisation written from the spec's words (poll algorithm of the
sequencing combinator, steps 2 to 4, the token already known not to be
cancelled): if the private `Output` is not yet filled, poll runner 1,
discarding its result apart from the write it makes into the private
cell — the cell was Empty, so a write is the spec's Empty-to-Filled
`set` transition and no write leaves it Empty; if the `Output` is now
filled — whether just now or on a prior poll — poll runner 2 and return
its result; otherwise return Pending. -/
def seqSpecAlg {σ1 σ2 W O1 O2 : Type}
    (m1 : RunnerModel σ1 W O1) (m2 : RunnerModel σ2 W O2)
    (s : SeqState σ1 σ2 O1) (w : W) : StepResult (SeqState σ1 σ2 O1) W O2 :=
  let afterStage1 :=
    if s.o1.isNone then
      let r1 := m1.step s.s1 w
      (r1.state, r1.world, r1.write)
    else (s.s1, w, s.o1)
  match afterStage1 with
  | (s1n, wn, o1n) =>
    if o1n.isSome then
      let r2 := m2.step s.s2 wn
      ⟨⟨s1n, r2.state, o1n⟩, r2.world, r2.write, r2.done⟩
    else ⟨⟨s1n, s.s2, o1n⟩, wn, none, false⟩

/-- A single-poll example action on the counter-and-flag world: it
increments the counter and completes at once. -/
def incModel : RunnerModel Unit (Nat × Bool) Unit :=
  ⟨fun _ w => ⟨(), (w.1 + 1, w.2), some (), true⟩⟩

/-- A single-poll example action on the counter-and-flag world: it sets
the flag and completes at once. -/
def flagModel : RunnerModel Unit (Nat × Bool) Unit :=
  ⟨fun _ w => ⟨(), (w.1, true), some (), true⟩⟩

/-- An example action that increments the counter on every poll and
completes, filling its output, exactly on the poll that brings its
private count to `N`. -/
def countModel (N : Nat) : RunnerModel Nat (Nat × Bool) Unit :=
  ⟨fun s w =>
    ⟨s + 1, (w.1 + 1, w.2), if s + 1 = N then some () else none, s + 1 == N⟩⟩

/-- C1: with a non-cancelled token, every poll of the composite runner
built by the sequencing combinator follows exactly the spec's algorithm
(poll runner 1 only while the private cell is empty, then poll runner 2
exactly when the cell is filled, else Pending), and the value stored in
the private cell is never read: polls from states that differ only in
that stored value agree on everything except the untouched cell. -/
theorem C1_sequence_follows_spec_algorithm {σ1 σ2 W O1 O2 : Type}
    (m1 : RunnerModel σ1 W O1) (m2 : RunnerModel σ2 W O2)
    (tk : CancellationToken) (hc : tk.requested_cancel = false) :
    (∀ s w, SequenceRunner.run m1 m2 tk s w = seqSpecAlg m1 m2 s w) ∧
    (∀ (s1 : σ1) (s2 : σ2) (v v' : O1) (w : W),
      (SequenceRunner.run m1 m2 tk ⟨s1, s2, some v⟩ w).state.s1
        = (SequenceRunner.run m1 m2 tk ⟨s1, s2, some v'⟩ w).state.s1 ∧
      (SequenceRunner.run m1 m2 tk ⟨s1, s2, some v⟩ w).state.s2
        = (SequenceRunner.run m1 m2 tk ⟨s1, s2, some v'⟩ w).state.s2 ∧
      (SequenceRunner.run m1 m2 tk ⟨s1, s2, some v⟩ w).world
        = (SequenceRunner.run m1 m2 tk ⟨s1, s2, some v'⟩ w).world ∧
      (SequenceRunner.run m1 m2 tk ⟨s1, s2, some v⟩ w).write
        = (SequenceRunner.run m1 m2 tk ⟨s1, s2, some v'⟩ w).write ∧
      (SequenceRunner.run m1 m2 tk ⟨s1, s2, some v⟩ w).done
        = (SequenceRunner.run m1 m2 tk ⟨s1, s2, some v'⟩ w).done) := by
  constructor
  · intro s w
    cases s with
    | mk s1 s2 o1 =>
      cases o1 with
      | some v => simp [SequenceRunner.run, seqSpecAlg, hc]
      | none =>
        cases hw : (m1.step s1 w).write with
        | some v => simp [SequenceRunner.run, seqSpecAlg, hc, hw]
        | none => simp [SequenceRunner.run, seqSpecAlg, hc, hw]
  · intro s1 s2 v v' w
    rw [seq_run_filled m1 m2 tk hc s1 s2 v w,
      seq_run_filled m1 m2 tk hc s1 s2 v' w]
    exact ⟨rfl, rfl, rfl, rfl, rfl⟩

theorem C1_witness :
    SequenceRunner.run incModel flagModel (.root false) ⟨(), (), none⟩ (0, false)
      = seqSpecAlg incModel flagModel ⟨(), (), none⟩ (0, false) :=
  (C1_sequence_follows_spec_algorithm incModel flagModel
    (.root false) rfl).1 ⟨(), (), none⟩ (0, false)

/-- C2 counterexample: `OnceRunner::run` ignores the cancellation token.
With a token whose cancellation was requested, the very next poll of a
fresh once-runner still runs the system — here mutating the world from
`0` to `1` — and still writes the system's return value `5` into its
(non-unit typed) `Output`, contradicting the claim that the poll
completes without mutating the world and without writing the output. -/
theorem C2_counterexample :
    CancellationToken.requested_cancel (.root true) = true ∧
    OnceRunner.run (fun (_ : Unit) (w : Nat) => (5, w + 1))
      (.root true) (some ()) 0
      = ⟨none, 1, some 5, true⟩ :=
  ⟨rfl, rfl⟩

/-- C2 (amended): the cancellation check lives only in the composite
`SequenceRunner`: with a cancelled token (own flag or any ancestor) its
poll completes at once, leaving the state, the world and the output
untouched and polling neither sub-runner.  The leaf runners
`OnceRunner` and `PushRunner` receive the token but ignore it: their
polls are identical for any two tokens, performing their effect
regardless of cancellation. -/
theorem C2_cancellation_handled_only_by_sequence {σ1 σ2 W V O1 O2 I O Act : Type}
    (m1 : RunnerModel σ1 W O1) (m2 : RunnerModel σ2 W O2)
    (system : I → V → O × V) (tk tk' : CancellationToken)
    (hc : tk.requested_cancel = true) :
    (∀ s w, SequenceRunner.run m1 m2 tk s w = ⟨s, w, none, true⟩) ∧
    (∀ input v, OnceRunner.run system tk input v
        = OnceRunner.run system tk' input v) ∧
    (∀ (track : Option (Track Act)) world,
      PushRunner.run tk track world = PushRunner.run tk' track world) :=
  ⟨fun s w => seq_run_cancelled m1 m2 tk hc s w,
   fun _ _ => rfl, fun _ _ => rfl⟩

theorem C2_witness :
    SequenceRunner.run incModel flagModel (.root true) ⟨(), (), none⟩ (0, false)
        = ⟨⟨(), (), none⟩, (0, false), none, true⟩ ∧
      OnceRunner.run (fun (_ : Unit) (w : Nat) => (5, w + 1))
          (.root true) (some ()) 0
        = OnceRunner.run (fun (_ : Unit) (w : Nat) => (5, w + 1))
          (.root false) (some ()) 0 ∧
      @PushRunner.run Unit (.root true) none ⟨[], false⟩
        = PushRunner.run (.root false) none ⟨[], false⟩ := by
  have h := @C2_cancellation_handled_only_by_sequence Unit Unit (Nat × Bool) Nat
    Unit Unit Unit Nat Unit incModel flagModel
    (fun (_ : Unit) (w : Nat) => (5, w + 1)) (.root true) (.root false) rfl
  exact ⟨h.1 ⟨(), (), none⟩ (0, false), h.2.1 (some ()) 0, h.2.2 none ⟨[], false⟩⟩

/-- C5: with a never-cancelled token no interleaving is possible.  On a
poll at whose stage-2 evaluation point the private cell is still empty
(it was empty at entry and runner 1's poll wrote nothing), the result
mentions runner 2 nowhere: its state is untouched and the composite is
Pending.  On a poll that begins with the cell already filled, the result
mentions runner 1 nowhere: its state is untouched and runner 2's result
is passed through. -/
theorem C5_no_stage_interleaving {σ1 σ2 W O1 O2 : Type}
    (m1 : RunnerModel σ1 W O1) (m2 : RunnerModel σ2 W O2)
    (tk : CancellationToken) (hc : tk.requested_cancel = false) :
    (∀ (s1 : σ1) (s2 : σ2) (w : W), (m1.step s1 w).write = none →
      SequenceRunner.run m1 m2 tk ⟨s1, s2, none⟩ w
        = ⟨⟨(m1.step s1 w).state, s2, none⟩, (m1.step s1 w).world, none, false⟩) ∧
    (∀ (s1 : σ1) (s2 : σ2) (v : O1) (w : W),
      SequenceRunner.run m1 m2 tk ⟨s1, s2, some v⟩ w
        = ⟨⟨s1, (m2.step s2 w).state, some v⟩, (m2.step s2 w).world,
           (m2.step s2 w).write, (m2.step s2 w).done⟩) :=
  ⟨fun s1 s2 w hw => seq_run_nowrite m1 m2 tk hc s1 s2 w hw,
   fun s1 s2 v w => seq_run_filled m1 m2 tk hc s1 s2 v w⟩

theorem C5_witness :
    SequenceRunner.run (countModel 2) flagModel (.root false)
        ⟨0, (), none⟩ (0, false)
      = ⟨⟨1, (), none⟩, (1, false), none, false⟩ ∧
    SequenceRunner.run (countModel 2) flagModel (.root false)
        ⟨2, (), some ()⟩ (2, false)
      = ⟨⟨2, (), some ()⟩, (2, true), some (), true⟩ := by
  have h := C5_no_stage_interleaving (countModel 2) flagModel (.root false) rfl
  exact ⟨h.1 0 () (0, false) rfl, h.2 2 () () (2, false)⟩

/-- C8: the runner created by `once::run` completes on its very first
poll, having run the system exactly once on the bound input and written
the system's return value into its `Output`; every later poll (input
already taken) completes immediately, leaves the world unchanged, and
writes nothing. -/
theorem C8_once_runs_system_exactly_once {I O W : Type}
    (system : I → W → O × W) (tk : CancellationToken) :
    (∀ (i : I) (w : W), OnceRunner.run system tk (some i) w
        = ⟨none, (system i w).2, some (system i w).1, true⟩) ∧
    (∀ w : W, OnceRunner.run system tk none w = ⟨none, w, none, true⟩) :=
  ⟨fun _ _ => rfl, fun _ => rfl⟩

/-- C3 counterexample: the claim's second part instantiated at N = 1
fails.  Composing a single-poll action (an action that completes on its
first poll) with another single-poll action yields a composite that
completes on its FIRST matching-phase poll, with the second action's
effect (the flag) already visible in that poll's world — not, as the
claim states, after exactly N + 1 = 2 polls with the second effect never
visible earlier.  (This also matches the claim's own first part.) -/
theorem C3_counterexample :
    ((seqModel incModel flagModel (.root false)).poll
        ⟨(), (), none⟩ (0, false) 0).done = true ∧
    ((seqModel incModel flagModel (.root false)).poll
        ⟨(), (), none⟩ (0, false) 0).world = (1, true) :=
  ⟨rfl, rfl⟩

/-- C3 (amended): with a never-cancelled token, composing an action that
completes on its (M+1)-th poll — writing its output exactly then and not
before — with a single-poll action yields a composite that completes
after exactly M+1 matching-phase polls (first completion at zero-based
poll M), with the second action untouched before that poll: up to and
including the world in which poll M starts, the composite's world is
exactly stage 1's own world and stage 2's state is unchanged, and every
earlier poll is Pending with no output write.  For M = 0 this is the
claim's first part: two single-poll actions finish within one poll. -/
theorem C3_sequencing_latency {σ1 σ2 W O1 O2 : Type}
    (m1 : RunnerModel σ1 W O1) (m2 : RunnerModel σ2 W O2)
    (tk : CancellationToken) (s1 : σ1) (s2 : σ2) (w : W) (M : Nat)
    (hc : tk.requested_cancel = false)
    (h1 : ∀ k, k < M → (m1.poll s1 w k).write = none)
    (h2 : ((m1.poll s1 w M).write).isSome = true)
    (hm2 : ∀ (s2' : σ2) (w' : W), (m2.step s2' w').done = true) :
    (seqModel m1 m2 tk).completesAt ⟨s1, s2, none⟩ w M ∧
    (∀ k, k ≤ M →
      ((seqModel m1 m2 tk).iter k ⟨s1, s2, none⟩ w).1.s2 = s2 ∧
      ((seqModel m1 m2 tk).iter k ⟨s1, s2, none⟩ w).2 = (m1.iter k s1 w).2) ∧
    (∀ k, k < M →
      ((seqModel m1 m2 tk).poll ⟨s1, s2, none⟩ w k).done = false ∧
      ((seqModel m1 m2 tk).poll ⟨s1, s2, none⟩ w k).write = none) := by
  have hpre : ∀ k, k ≤ M →
      (seqModel m1 m2 tk).iter k ⟨s1, s2, none⟩ w
        = (⟨(m1.iter k s1 w).1, s2, none⟩, (m1.iter k s1 w).2) := by
    intro k hk
    exact seq_iter_prefill m1 m2 tk hc k s1 s2 w
      (fun j hj => h1 j (lt_of_lt_of_le hj hk))
  have hpend : ∀ k, k < M →
      (seqModel m1 m2 tk).poll ⟨s1, s2, none⟩ w k
        = ⟨⟨(m1.poll s1 w k).state, s2, none⟩, (m1.poll s1 w k).world,
           none, false⟩ := by
    intro k hk
    exact seq_poll_prefill m1 m2 tk hc k s1 s2 w
      (fun j hj => h1 j (lt_of_le_of_lt hj hk))
  obtain ⟨v, hv⟩ := Option.isSome_iff_exists.mp h2
  have hvstep : (m1.step (m1.iter M s1 w).1 (m1.iter M s1 w).2).write = some v := hv
  have hdoneM : ((seqModel m1 m2 tk).poll ⟨s1, s2, none⟩ w M).done = true := by
    unfold RunnerModel.poll
    rw [hpre M (Nat.le_refl M)]
    have hrun := seq_run_write m1 m2 tk hc (m1.iter M s1 w).1 s2
      (m1.iter M s1 w).2 v hvstep
    exact (congrArg StepResult.done hrun).trans
      (hm2 s2 (m1.step (m1.iter M s1 w).1 (m1.iter M s1 w).2).world)
  refine ⟨⟨hdoneM, fun k hk => by rw [hpend k hk]⟩, fun k hk => ?_, fun k hk => ?_⟩
  · exact ⟨congrArg (fun p => p.1.s2) (hpre k hk),
      congrArg (fun p => p.2) (hpre k hk)⟩
  · exact ⟨by rw [hpend k hk], by rw [hpend k hk]⟩

theorem C3_witness :
    (seqModel (countModel 3) flagModel (.root false)).completesAt
      ⟨0, (), none⟩ (0, false) 2 :=
  (C3_sequencing_latency (countModel 3) flagModel (.root false) 0 () (0, false) 2
    rfl (by intro k hk; interval_cases k <;> rfl) rfl (fun _ _ => rfl)).1

/-- An example action that reports completion on every poll yet never
writes its output cell — a runner violating the leaf contract, used to
exercise the combinator's reaction to a discarded completion flag. -/
def liarModel : RunnerModel Unit (Nat × Bool) Unit :=
  ⟨fun _ w => ⟨(), (w.1 + 1, w.2), none, true⟩⟩

/-- The same world behaviour as `liarModel` but reporting Pending:
both differ only in the returned completion flag. -/
def liarPendingModel : RunnerModel Unit (Nat × Bool) Unit :=
  ⟨fun _ w => ⟨(), (w.1 + 1, w.2), none, false⟩⟩

/-- C9: stage-1 completion is judged solely by the private cell, and
runner 1's returned flag is discarded: (1) two stage-1 runners agreeing
on state, world and write but possibly differing in their completion
flags give identical composite polls; (2) a poll on which runner 1
completes without having written the cell leaves the composite Pending
with the cell still empty; (3) a non-cancelled composite poll that
returns Completed always leaves the cell filled; (4) if stage 1 never
writes, then on every poll the composite stays Pending, runner 1 is
polled again (its state advances exactly as under its own iteration)
and the cell stays empty with stage 2 untouched. -/
theorem C9_completion_determined_by_output_cell {σ1 σ2 W O1 O2 : Type}
    (m1 m1' : RunnerModel σ1 W O1) (m2 : RunnerModel σ2 W O2)
    (tk : CancellationToken) (hc : tk.requested_cancel = false)
    (hflag : ∀ s w, (m1.step s w).state = (m1'.step s w).state ∧
                    (m1.step s w).world = (m1'.step s w).world ∧
                    (m1.step s w).write = (m1'.step s w).write) :
    (∀ s w, SequenceRunner.run m1 m2 tk s w = SequenceRunner.run m1' m2 tk s w) ∧
    (∀ (s1 : σ1) (s2 : σ2) (w : W),
      (m1.step s1 w).write = none → (m1.step s1 w).done = true →
      SequenceRunner.run m1 m2 tk ⟨s1, s2, none⟩ w
        = ⟨⟨(m1.step s1 w).state, s2, none⟩, (m1.step s1 w).world, none, false⟩) ∧
    (∀ s w, (SequenceRunner.run m1 m2 tk s w).done = true →
      (SequenceRunner.run m1 m2 tk s w).state.o1.isSome = true) ∧
    ((∀ s w, (m1.step s w).write = none) →
      ∀ (s1 : σ1) (s2 : σ2) (w : W) (k : Nat),
        ((seqModel m1 m2 tk).poll ⟨s1, s2, none⟩ w k).done = false ∧
        ((seqModel m1 m2 tk).iter k ⟨s1, s2, none⟩ w).1.s1 = (m1.iter k s1 w).1 ∧
        ((seqModel m1 m2 tk).iter k ⟨s1, s2, none⟩ w).1.s2 = s2 ∧
        ((seqModel m1 m2 tk).iter k ⟨s1, s2, none⟩ w).1.o1 = none) := by
  refine ⟨?_, ?_, ?_, ?_⟩
  · intro s w
    cases s with
    | mk s1 s2 o1 =>
      cases o1 with
      | some v => rw [seq_run_filled m1 m2 tk hc, seq_run_filled m1' m2 tk hc]
      | none =>
        obtain ⟨hs, hw, hr⟩ := hflag s1 w
        cases hwr : (m1.step s1 w).write with
        | none =>
          rw [seq_run_nowrite m1 m2 tk hc s1 s2 w hwr,
            seq_run_nowrite m1' m2 tk hc s1 s2 w (hr.symm.trans hwr), hs, hw]
        | some v =>
          rw [seq_run_write m1 m2 tk hc s1 s2 w v hwr,
            seq_run_write m1' m2 tk hc s1 s2 w v (hr.symm.trans hwr), hs, hw]
  · intro s1 s2 w hwr _
    exact seq_run_nowrite m1 m2 tk hc s1 s2 w hwr
  · intro s w hd
    cases s with
    | mk s1 s2 o1 =>
      cases o1 with
      | some v => rw [seq_run_filled m1 m2 tk hc]; rfl
      | none =>
        cases hwr : (m1.step s1 w).write with
        | none =>
          rw [seq_run_nowrite m1 m2 tk hc s1 s2 w hwr] at hd
          exact absurd hd (by simp)
        | some v => rw [seq_run_write m1 m2 tk hc s1 s2 w v hwr]; rfl
  · intro hnw s1 s2 w k
    have hpoll : ∀ (a : σ1) (b : W) (j : Nat), (m1.poll a b j).write = none := by
      intro a b j
      unfold RunnerModel.poll
      exact hnw _ _
    have hit := seq_iter_prefill m1 m2 tk hc k s1 s2 w (fun j _ => hpoll s1 w j)
    have hp := seq_poll_prefill m1 m2 tk hc k s1 s2 w (fun j _ => hpoll s1 w j)
    exact ⟨by rw [hp], congrArg (fun p => p.1.s1) hit,
      congrArg (fun p => p.1.s2) hit, congrArg (fun p => p.1.o1) hit⟩

theorem C9_witness :
    SequenceRunner.run liarModel flagModel (.root false) ⟨(), (), none⟩ (0, false)
        = ⟨⟨(), (), none⟩, (1, false), none, false⟩ ∧
    ((seqModel liarModel flagModel (.root false)).poll
        ⟨(), (), none⟩ (0, false) 5).done = false := by
  have h := C9_completion_determined_by_output_cell liarModel liarPendingModel
    flagModel (.root false) rfl (fun _ _ => ⟨rfl, rfl, rfl⟩)
  exact ⟨h.2.1 () () (0, false) rfl rfl,
    (h.2.2.2 (fun _ _ => rfl) () () (0, false) 5).1⟩

/-- C6: a push runner's first poll returns the `OperationInProgress`
error as an ordinary output value exactly when a replay is active, and
then leaves the record (in particular the track-log length) unchanged;
when no replay is active the identical push writes `Success` and
appends, growing the log length by one.  In both cases the poll reports
Completed. -/
theorem C6_push_in_progress_vs_success {Act : Type} (tk : CancellationToken)
    (t : Track Act) (w : Record Act) :
    (w.inProgress = true →
      PushRunner.run tk (some t) w = ⟨none, w, some (.error .mk), true⟩) ∧
    (w.inProgress = false →
      PushRunner.run tk (some t) w
          = ⟨none, { w with tracks := w.tracks ++ [t] }, some (.ok ()), true⟩ ∧
        (w.tracks ++ [t]).length = w.tracks.length + 1) := by
  constructor
  · intro h
    simp [PushRunner.run, push_track, h]
  · intro h
    exact ⟨by simp [PushRunner.run, push_track, h], by simp⟩

theorem C6_witness :
    @PushRunner.run Unit (.root false) (some ⟨()⟩) ⟨[], true⟩
        = ⟨none, ⟨[], true⟩, some (.error .mk), true⟩ ∧
      @PushRunner.run Unit (.root false) (some ⟨()⟩) ⟨[], false⟩
        = ⟨none, ⟨[⟨()⟩], false⟩, some (.ok ()), true⟩ :=
  ⟨(C6_push_in_progress_vs_success (.root false) ⟨()⟩ ⟨[], true⟩).1 rfl,
   ((C6_push_in_progress_vs_success (.root false) ⟨()⟩ ⟨[], false⟩).2 rfl).1⟩

/-- Deferred action bound to its input, as the sequencing layer sees it:
realised against a token, it yields a runner with a hidden state type,
its step function, and its initial state. -/
def ActionModel (W O : Type) : Type 1 :=
  CancellationToken → (σ : Type) × RunnerModel σ W O × σ

/-- Embedding of `Then::then` (src/src/action/sequence.rs, lines 46-66):
realise stage 1 against a fresh private cell — initially empty — and
stage 2 against the external cell, both stages and the composite holding
clones of the same token, and drive the pair with `SequenceRunner`. -/
def thenAction {W O : Type} (a b : ActionModel W O) : ActionModel W O :=
  fun tk =>
    ⟨SeqState (a tk).1 (b tk).1 O,
     seqModel (a tk).2.1 (b tk).2.1 tk,
     ⟨(a tk).2.2, (b tk).2.2, none⟩⟩

/-- The macro's trailing repetition: one `.then($action)` call per
remaining action, applied to the accumulated chain. -/
def sequenceChain {W O : Type} (acc : ActionModel W O) :
    List (ActionModel W O) → ActionModel W O
  | [] => acc
  | b :: rest => sequenceChain (thenAction acc b) rest

/-- Embedding of the expansion of the `sequence!` macro
(src/src/action/sequence.rs, lines 97-108): a single action expands to
itself unchanged; two or more expand to the first `.then` the second,
followed by one `.then` per remaining action. -/
def sequenceActions {W O : Type} (a : ActionModel W O) :
    List (ActionModel W O) → ActionModel W O
  | [] => a
  | b :: rest => sequenceChain (thenAction a b) rest

theorem sequenceChain_eq_foldl {W O : Type} :
    ∀ (l : List (ActionModel W O)) (acc : ActionModel W O),
      sequenceChain acc l = List.foldl thenAction acc l := by
  intro l
  induction l with
  | nil => intro acc; rfl
  | cons b rest ih => intro acc; exact ih (thenAction acc b)

/-- C4: the `sequence!` macro expansion is the left fold of the binary
`Then` combinator over the action list, and a one-element `sequence!`
is that action itself, unchanged. -/
theorem C4_sequence_is_left_fold_of_then {W O : Type}
    (a : ActionModel W O) (l : List (ActionModel W O)) :
    sequenceActions a l = List.foldl thenAction a l ∧
    sequenceActions a [] = a := by
  refine ⟨?_, rfl⟩
  cases l with
  | nil => rfl
  | cons b rest => exact sequenceChain_eq_foldl rest (thenAction a b)

theorem onceModel_writeOnce {I O W : Type} (system : I → W → O × W)
    (tk : CancellationToken) (i : I) :
    (onceModel system tk).WriteOnce (some i) := by
  intro w n hcomp
  have hn : n = 0 := by
    by_contra hne
    have h0 := hcomp.2 0 (Nat.pos_of_ne_zero hne)
    simp [RunnerModel.poll, RunnerModel.iter, onceModel, OnceRunner.run] at h0
  subst hn
  exact ⟨0, Nat.le_refl 0, rfl,
    fun j hj hne => absurd (Nat.le_zero.mp hj) hne⟩

theorem pushModel_writeOnce {Act : Type} (tk : CancellationToken)
    (t : Option (Track Act)) : (pushModel tk).WriteOnce t := by
  intro w n hcomp
  have hdone : ∀ (t2 : Option (Track Act)) (w2 : Record Act),
      (PushRunner.run tk t2 w2).done = true ∧
      (PushRunner.run tk t2 w2).write.isSome = true := by
    intro t2 w2
    cases t2 with
    | none => exact ⟨rfl, rfl⟩
    | some tr =>
      cases hip : w2.inProgress <;>
        simp [PushRunner.run, push_track, hip]
  have hn : n = 0 := by
    by_contra hne
    have h0 := hcomp.2 0 (Nat.pos_of_ne_zero hne)
    rw [RunnerModel.poll_zero] at h0
    have h0' : (PushRunner.run tk t w).done = false := h0
    rw [(hdone t w).1] at h0'
    exact absurd h0' (by simp)
  subst hn
  exact ⟨0, Nat.le_refl 0, (hdone t w).2,
    fun j hj hne => absurd (Nat.le_zero.mp hj) hne⟩

theorem seq_writeOnce_from_fill {σ1 σ2 W O1 O2 : Type}
    (m1 : RunnerModel σ1 W O1) (m2 : RunnerModel σ2 W O2)
    (tk : CancellationToken) (hc : tk.requested_cancel = false)
    (s1 : σ1) (s2 : σ2) (w : W) (v : O1)
    (hw : (m1.step s1 w).write = some v)
    (H : m2.WriteOnce s2) (n : Nat)
    (hcomp : (seqModel m1 m2 tk).completesAt ⟨s1, s2, none⟩ w n) :
    (seqModel m1 m2 tk).writeOnceUpTo ⟨s1, s2, none⟩ w n := by
  have htr := seq_poll_after_first_write m1 m2 tk hc s1 s2 w v hw
  have hm2comp : m2.completesAt s2 (m1.step s1 w).world n :=
    ⟨(htr n).2.symm.trans hcomp.1,
     fun k hk => (htr k).2.symm.trans (hcomp.2 k hk)⟩
  obtain ⟨k, hk, hks, hother⟩ := H (m1.step s1 w).world n hm2comp
  refine ⟨k, hk, ?_, ?_⟩
  · rw [(htr k).1]; exact hks
  · intro j hj hne
    rw [(htr j).1]; exact hother j hj hne

theorem seqModel_writeOnce {σ1 σ2 W O1 O2 : Type}
    (m1 : RunnerModel σ1 W O1) (m2 : RunnerModel σ2 W O2)
    (tk : CancellationToken) (hc : tk.requested_cancel = false)
    (s2 : σ2) (H : m2.WriteOnce s2) (s1 : σ1) :
    (seqModel m1 m2 tk).WriteOnce ⟨s1, s2, none⟩ := by
  have main : ∀ (n : Nat) (s1 : σ1) (w : W),
      (seqModel m1 m2 tk).completesAt ⟨s1, s2, none⟩ w n →
      (seqModel m1 m2 tk).writeOnceUpTo ⟨s1, s2, none⟩ w n := by
    intro n
    induction n with
    | zero =>
      intro s1 w hcomp
      cases hw : (m1.step s1 w).write with
      | some v => exact seq_writeOnce_from_fill m1 m2 tk hc s1 s2 w v hw H 0 hcomp
      | none =>
        have hstep : (seqModel m1 m2 tk).step ⟨s1, s2, none⟩ w
            = ⟨⟨(m1.step s1 w).state, s2, none⟩, (m1.step s1 w).world,
               none, false⟩ :=
          seq_run_nowrite m1 m2 tk hc s1 s2 w hw
        have h0 := hcomp.1
        rw [RunnerModel.poll_zero, hstep] at h0
        exact absurd h0 (by simp)
    | succ n ih =>
      intro s1 w hcomp
      cases hw : (m1.step s1 w).write with
      | some v =>
        exact seq_writeOnce_from_fill m1 m2 tk hc s1 s2 w v hw H (n + 1) hcomp
      | none =>
        have hstep : (seqModel m1 m2 tk).step ⟨s1, s2, none⟩ w
            = ⟨⟨(m1.step s1 w).state, s2, none⟩, (m1.step s1 w).world,
               none, false⟩ :=
          seq_run_nowrite m1 m2 tk hc s1 s2 w hw
        have hshift : ∀ t, (seqModel m1 m2 tk).poll ⟨s1, s2, none⟩ w (t + 1)
            = (seqModel m1 m2 tk).poll
                ⟨(m1.step s1 w).state, s2, none⟩ (m1.step s1 w).world t := by
          intro t
          rw [RunnerModel.poll_succ, hstep]
        have hcomp2 : (seqModel m1 m2 tk).completesAt
            ⟨(m1.step s1 w).state, s2, none⟩ (m1.step s1 w).world n := by
          constructor
          · rw [← hshift n]; exact hcomp.1
          · intro k hk
            rw [← hshift k]
            exact hcomp.2 (k + 1) (Nat.succ_lt_succ hk)
        obtain ⟨k, hk, hks, hother⟩ := ih (m1.step s1 w).state (m1.step s1 w).world hcomp2
        refine ⟨k + 1, Nat.succ_le_succ hk, ?_, ?_⟩
        · rw [hshift k]; exact hks
        · intro j hj hne
          cases j with
          | zero =>
            rw [RunnerModel.poll_zero, hstep]
          | succ j =>
            rw [hshift j]
            exact hother j (Nat.le_of_succ_le_succ hj)
              (fun hh => hne (congrArg Nat.succ hh))
  intro w n hcomp
  exact main n s1 w hcomp

/-- C7: every runner defined in the repository writes its `Output` cell
exactly once, no later than its first completing poll, across any poll
sequence with a never-cancelled token: the once-runner and the push
runner unconditionally; the sequence-combinator runner whenever its
second stage — itself a repository runner against that cell — has the
write-once property, the single write of the composite being stage 2's
(the single-write invariant then gives an unchanging value: there is no
other write within the sequence that could alter the cell). -/
theorem C7_output_written_exactly_once :
    (∀ (I O W : Type) (system : I → W → O × W) (tk : CancellationToken) (i : I),
      (onceModel system tk).WriteOnce (some i)) ∧
    (∀ (Act : Type) (tk : CancellationToken) (t : Track Act),
      (pushModel tk).WriteOnce (some t)) ∧
    (∀ (σ1 σ2 W O1 O2 : Type)
      (m1 : RunnerModel σ1 W O1) (m2 : RunnerModel σ2 W O2)
      (tk : CancellationToken) (s1 : σ1) (s2 : σ2),
      tk.requested_cancel = false → m2.WriteOnce s2 →
      (seqModel m1 m2 tk).WriteOnce ⟨s1, s2, none⟩) :=
  ⟨fun _ _ _ system tk i => onceModel_writeOnce system tk i,
   fun _ tk t => pushModel_writeOnce tk (some t),
   fun _ _ _ _ _ m1 m2 tk s1 _ hc H => seqModel_writeOnce m1 m2 tk hc _ H s1⟩

theorem C7_witness :
    (seqModel incModel
      (onceModel (fun (_ : Unit) (w : Nat × Bool) => ((), w)) (.root false))
      (.root false)).WriteOnce ⟨(), some (), none⟩ :=
  C7_output_written_exactly_once.2.2 Unit (Option Unit) (Nat × Bool) Unit Unit
    incModel (onceModel (fun (_ : Unit) (w : Nat × Bool) => ((), w)) (.root false))
    (.root false) () (some ()) rfl
    (onceModel_writeOnce (fun (_ : Unit) (w : Nat × Bool) => ((), w)) (.root false) ())

end Flurx
